import Mathlib

set_option maxRecDepth 8000

namespace Einops

/-! Shallow embedding of the `rearrange` implementation of
`src/Einops_from_scratch.ipynb`.

Arrays are modelled as a shape together with the row-major flat data.
Pattern tokens are lists of characters, so that all string processing
reduces by kernel computation.  Python dictionaries are association lists
where a new binding is consed to the front, hence lookup sees the most
recent write, exactly like overwriting a key in a `dict`. -/

/-- One constructor per `raise EinopsError` site of the source, plus the
Python and numpy level exceptions that can escape `rearrange` uncaught:
an `IndexError` coming from `shape[pos]`, a `KeyError` coming from
`dim_sizes[...]`, a `ZeroDivisionError` from `total % 0`, a numpy axes
error from `np.transpose` / `np.expand_dims` / `np.repeat`, and the
unpacking `ValueError` when the pattern contains two arrows. -/
inductive Err where
  | unexpectedKeys (keys : List (List Char))
  | missingArrow
  | unpackError
  | mismatchedParens
  | multipleEllipsis
  | ellipsisAsymmetry
  | notEnoughDims
  | multipleUnknown (dim : List Char)
  | nonDivisible (total known : Nat)
  | sizeMismatchComposite (dim : List Char) (expected got : Nat)
  | dimSizeMismatch (dim : List Char)
  | keyError (key : List Char)
  | indexError
  | axesError
  | zeroDivision
  | reshapeError (shape : List Nat)
  deriving DecidableEq, Repr

instance {ε α : Type} [DecidableEq ε] [DecidableEq α] : DecidableEq (Except ε α) := fun a b =>
  match a, b with
  | .ok x, .ok y =>
    if h : x = y then .isTrue (by rw [h]) else .isFalse (fun hc => h (Except.ok.inj hc))
  | .error x, .error y =>
    if h : x = y then .isTrue (by rw [h]) else .isFalse (fun hc => h (Except.error.inj hc))
  | .ok _, .error _ => .isFalse (fun hc => Except.noConfusion hc)
  | .error _, .ok _ => .isFalse (fun hc => Except.noConfusion hc)

/-- A pattern token, the way the source keeps it: the raw list of characters. -/
abbrev Tok := List Char

/-- A Python `dict` keyed by tokens: association list, most recent write first. -/
abbrev PyDict := List (Tok × Nat)

/-- Writing `d[k] = v`: the new binding shadows any older one. -/
def dictInsert (d : PyDict) (k : Tok) (v : Nat) : PyDict := (k, v) :: d

/-- Reading `d.get(k)` / `k in d`: first (most recent) binding wins. -/
def dictGet? (d : PyDict) (k : Tok) : Option Nat := d.lookup k

/-- Does the character list start with the given pattern?  (`str.startswith`.) -/
def strStarts : List Char → List Char → Bool
  | _, [] => true
  | [], _ :: _ => false
  | c :: cs, p :: ps => c = p && strStarts cs ps

/-- `str.replace(pat, rep)` on character lists: leftmost, non-overlapping.
The fuel argument only serves termination; it is at least the length. -/
def replaceAux (pat rep : List Char) : Nat → List Char → List Char
  | 0, s => s
  | _ + 1, [] => []
  | fuel + 1, c :: cs =>
    if strStarts (c :: cs) pat then rep ++ replaceAux pat rep fuel ((c :: cs).drop pat.length)
    else c :: replaceAux pat rep fuel cs

def pyReplace (s pat rep : List Char) : List Char := replaceAux pat rep (s.length + 1) s

/-- `str.split(sep)` on character lists, used for splitting at `->`. -/
def splitOnAux (pat : List Char) : Nat → List Char → List Char → List (List Char)
  | 0, acc, s => [acc.reverse ++ s]
  | _ + 1, acc, [] => [acc.reverse]
  | fuel + 1, acc, c :: cs =>
    if strStarts (c :: cs) pat then
      acc.reverse :: splitOnAux pat fuel [] ((c :: cs).drop pat.length)
    else splitOnAux pat fuel (c :: acc) cs

def pySplitOn (s pat : List Char) : List (List Char) := splitOnAux pat (s.length + 1) [] s

/-- Longest run of non-whitespace characters at the front. -/
def takeTok : List Char → List Char
  | [] => []
  | c :: cs => if c.isWhitespace then [] else c :: takeTok cs

/-- What is left after the longest non-whitespace run at the front. -/
def dropTok : List Char → List Char
  | [] => []
  | c :: cs => if c.isWhitespace then c :: cs else dropTok cs

/-- `str.split()` (no argument): split on whitespace runs, dropping empties. -/
def pySplitWsAux : Nat → List Char → List Tok
  | 0, _ => []
  | _ + 1, [] => []
  | fuel + 1, c :: cs =>
    if c.isWhitespace then pySplitWsAux fuel cs
    else takeTok (c :: cs) :: pySplitWsAux fuel (dropTok (c :: cs))

def pySplitWs (s : List Char) : List Tok := pySplitWsAux (s.length + 1) s

/-- `str.strip('()')`: remove parentheses from both ends. -/
def stripParens (s : Tok) : Tok :=
  ((s.dropWhile (fun c => c = '(' || c = ')')).reverse.dropWhile
    (fun c => c = '(' || c = ')')).reverse

/-- Is there a `)` anywhere ahead?  (Whether `\(.*?\)` can match.) -/
def hasClose : List Char → Bool
  | [] => false
  | c :: cs => if c = ')' then true else hasClose cs

/-- Characters up to and including the first `)`. -/
def takeToClose : List Char → List Char
  | [] => []
  | c :: cs => if c = ')' then [c] else c :: takeToClose cs

/-- Characters after the first `)`. -/
def dropToClose : List Char → List Char
  | [] => []
  | c :: cs => if c = ')' then cs else dropToClose cs

/-- The scanner of `re.findall(r'\(.*?\)|\.\.\.|\S+', expr)`: skip whitespace,
try a parenthesised group (shortest match to the first `)`), else take a
maximal non-whitespace run (which also covers the isolated `...` produced by
the foregoing replace). -/
def scanTokens : Nat → List Char → List Tok
  | 0, _ => []
  | _ + 1, [] => []
  | fuel + 1, c :: cs =>
    if c.isWhitespace then scanTokens fuel cs
    else if c = '(' then
      if hasClose cs then (c :: takeToClose cs) :: scanTokens fuel (dropToClose cs)
      else takeTok (c :: cs) :: scanTokens fuel (dropTok (c :: cs))
    else takeTok (c :: cs) :: scanTokens fuel (dropTok (c :: cs))

/-- `tokenize` of the source: space out every `...`, then scan. -/
def tokenize (s : List Char) : List Tok :=
  let s2 := pyReplace s ['.', '.', '.'] [' ', '.', '.', '.', ' ']
  scanTokens (s2.length + 1) s2

/-- `parse_pattern`: split at `->`; no arrow is `MissingArrow`, two or more
arrows make the two-variable unpacking fail with a raw `ValueError`. -/
def parsePattern (pattern : List Char) : Except Err (List Tok × List Tok) :=
  match pySplitOn pattern ['-', '>'] with
  | [_] => .error .missingArrow
  | [a, b] => .ok (tokenize a, tokenize b)
  | _ => .error .unpackError

/-- `_collect_identifiers`: blank out parens and ellipses, split on whitespace. -/
def collectIdentifiers (pattern : List Char) : List Tok :=
  pySplitWs (pyReplace (pyReplace (pyReplace pattern ['('] [' ']) [')'] [' '])
    ['.', '.', '.'] [' '])

/-- `validate_axes_lengths`: every caller-supplied key must occur in the pattern. -/
def validateAxesLengths (pattern : List Char) (axesLengths : PyDict) : Except Err Unit :=
  let ids := collectIdentifiers pattern
  let extra := (axesLengths.map Prod.fst).filter (fun k => ¬ ids.contains k)
  if extra = [] then .ok () else .error (.unexpectedKeys extra)

/-- The synthetic axis name `_d{i}` uses the decimal digits of `i`. -/
def natDigitsAux : Nat → Nat → List Char
  | 0, _ => []
  | fuel + 1, n =>
    if n < 10 then [Char.ofNat (48 + n)]
    else natDigitsAux fuel (n / 10) ++ [Char.ofNat (48 + n % 10)]

def natDigits (n : Nat) : List Char := natDigitsAux (n + 1) n

def synthName (i : Nat) : Tok := '_' :: 'd' :: natDigits i

/-- Replace the ellipsis token at `idx` by the `n` synthetic names. -/
def expandDimsList (dims : List Tok) (idx n : Nat) : List Tok :=
  dims.take idx ++ (List.range n).map synthName ++ dims.drop (idx + 1)

/-- The mutable state threaded through the input-dimension loop:
`dim_sizes`, `input_dim_to_pos` and the running cursor `pos`. -/
structure ResolveState where
  dimSizes : PyDict
  dimToPos : PyDict
  pos : Nat
  deriving DecidableEq, Repr

/-- The `for comp in components` loop of the composite branch: multiply known
members into `known_size`, remember at most one unknown member. -/
def scanComponents (axesLengths : PyDict) (dim : Tok) :
    List Tok → Nat → Option Tok → PyDict → Except Err (Nat × Option Tok × PyDict)
  | [], known, unknown, sizes => .ok (known, unknown, sizes)
  | comp :: rest, known, unknown, sizes =>
    match dictGet? axesLengths comp with
    | some v => scanComponents axesLengths dim rest (known * v) unknown (dictInsert sizes comp v)
    | none =>
      match unknown with
      | some _ => .error (.multipleUnknown dim)
      | none => scanComponents axesLengths dim rest known (some comp) sizes

/-- The composite (`'(' in dim`) branch of the input loop, given the consumed
axis size `total = shape[pos]`. -/
def resolveComposite (axesLengths : PyDict) (st : ResolveState) (dim : Tok) (total : Nat) :
    Except Err ResolveState := do
  let comps := pySplitWs (stripParens dim)
  let (known, unknown, sizes) ← scanComponents axesLengths dim comps 1 none st.dimSizes
  let sizes2 ←
    match unknown with
    | some u =>
      if known = 0 then .error .zeroDivision
      else if total % known ≠ 0 then .error (.nonDivisible total known)
      else .ok (dictInsert sizes u (total / known))
    | none =>
      if total ≠ known then .error (.sizeMismatchComposite dim known total)
      else .ok sizes
  .ok ⟨sizes2, comps.foldl (fun d c => dictInsert d c st.pos) st.dimToPos, st.pos + 1⟩

/-- One iteration of the `for dim in full_input_dims` loop. -/
def resolveDim (shape : List Nat) (axesLengths : PyDict) (st : ResolveState) (dim : Tok) :
    Except Err ResolveState :=
  if strStarts dim ['_', 'd'] then
    if st.pos < shape.length then
      .ok ⟨dictInsert st.dimSizes dim (shape.getD st.pos 0),
        dictInsert st.dimToPos dim st.pos, st.pos + 1⟩
    else .error .indexError
  else if dim.contains '(' then
    if st.pos < shape.length then
      resolveComposite axesLengths st dim (shape.getD st.pos 0)
    else .error .indexError
  else
    if shape.length ≤ st.pos then .error .notEnoughDims
    else
      let actual := shape.getD st.pos 0
      match dictGet? axesLengths dim with
      | some v =>
        if actual ≠ v ∧ actual ≠ 1 then .error (.dimSizeMismatch dim)
        else .ok ⟨dictInsert st.dimSizes dim v, dictInsert st.dimToPos dim st.pos, st.pos + 1⟩
      | none =>
        .ok ⟨dictInsert st.dimSizes dim actual, dictInsert st.dimToPos dim st.pos, st.pos + 1⟩

/-- The whole input-dimension loop. -/
def resolveInput (shape : List Nat) (axesLengths : PyDict) (dims : List Tok) :
    Except Err ResolveState :=
  dims.foldlM (resolveDim shape axesLengths) ⟨[], [], 0⟩

/-- An array: its shape and its row-major flat data. -/
structure NpArray (α : Type) where
  shape : List Nat
  data : List α
  deriving DecidableEq, Repr

/-- An array is well formed when the data has exactly one entry per position. -/
def NpArray.wf {α : Type} (a : NpArray α) : Prop := a.data.length = a.shape.prod

/-- Row-major flat position of a multi-index. -/
def flatIndex : List Nat → List Nat → Nat
  | [], _ => 0
  | _, [] => 0
  | _ :: ds, i :: is => i * ds.prod + flatIndex ds is

/-- Element at a multi-index (with a default outside the data). -/
def NpArray.item {α : Type} [Inhabited α] (a : NpArray α) (idx : List Nat) : α :=
  a.data.getD (flatIndex a.shape idx) default

/-- All multi-indices of a shape in row-major order. -/
def allIndices : List Nat → List (List Nat)
  | [] => [[]]
  | d :: rest => (List.range d).flatMap (fun i => (allIndices rest).map (fun idx => i :: idx))

/-- `np.transpose(a, axes)`: `axes` must be a permutation of the axis numbers,
otherwise numpy raises its own axes error. -/
def npTranspose {α : Type} [Inhabited α] (a : NpArray α) (axes : List Nat) :
    Except Err (NpArray α) :=
  let n := a.shape.length
  if axes.length = n && (List.range n).all (fun k => axes.contains k) then
    let outShape := axes.map (fun p => a.shape.getD p 0)
    .ok ⟨outShape,
      (allIndices outShape).map (fun j =>
        a.data.getD (flatIndex a.shape
          ((List.range n).map (fun k => j.getD (axes.indexOf k) 0))) default)⟩
  else .error .axesError

/-- `np.expand_dims(a, idx)`: insert a length-one axis. -/
def expandDims {α : Type} (a : NpArray α) (idx : Nat) : Except Err (NpArray α) :=
  if idx ≤ a.shape.length then .ok ⟨a.shape.take idx ++ 1 :: a.shape.drop idx, a.data⟩
  else .error .axesError

/-- Split a list into consecutive chunks of length `n` (fuel ≥ length). -/
def listChunksAux {α : Type} : Nat → Nat → List α → List (List α)
  | 0, _, _ => []
  | _ + 1, _, [] => []
  | fuel + 1, n, l => l.take n :: listChunksAux fuel n (l.drop n)

def listChunks {α : Type} (n : Nat) (l : List α) : List (List α) :=
  listChunksAux (l.length + 1) n l

/-- `np.repeat(a, size, axis)`: every slice along `axis` is repeated `size`
times in place; on the flat data each block of `inner` elements is repeated. -/
def npRepeat {α : Type} (a : NpArray α) (size axis : Nat) : Except Err (NpArray α) :=
  if axis < a.shape.length then
    .ok ⟨a.shape.take axis ++ (a.shape.getD axis 0 * size) :: a.shape.drop (axis + 1),
      (((listChunks ((a.shape.drop (axis + 1)).prod) a.data).map
        (fun c => (List.replicate size c).flatten)).flatten)⟩
  else .error .axesError

/-- Stable insertion into a list sorted by decreasing first component,
matching `sorted(repeat_indices, key=lambda x: -x[0])`. -/
def insertDesc (x : Nat × Nat) : List (Nat × Nat) → List (Nat × Nat)
  | [] => [x]
  | y :: ys => if y.1 < x.1 then x :: y :: ys else y :: insertDesc x ys

def sortRepeats (rs : List (Nat × Nat)) : List (Nat × Nat) :=
  rs.foldl (fun acc x => insertDesc x acc) []

/-- The planner state: `final_shape` and the `repeat_indices` list. -/
structure PlanState where
  finalShape : List Nat
  repeats : List (Nat × Nat)
  deriving DecidableEq, Repr

/-- The `size *= dim_sizes[comp]` loop of the output composite branch. -/
def compositeSize (dimSizes : PyDict) : List Tok → Nat → Except Err Nat
  | [], acc => .ok acc
  | c :: cs, acc =>
    match dictGet? dimSizes c with
    | some v => compositeSize dimSizes cs (acc * v)
    | none => .error (.keyError c)

/-- One iteration of the `for i, dim in enumerate(full_output_dims)` loop. -/
def planDim (axesLengths dimSizes : PyDict) (nEllipsis : Nat) (st : PlanState) (dim : Tok) :
    Except Err PlanState :=
  if dim = ['.', '.', '.'] then
    (List.range nEllipsis).foldlM (fun s j =>
      match dictGet? dimSizes (synthName j) with
      | some v => .ok { s with finalShape := s.finalShape ++ [v] }
      | none => .error (.keyError (synthName j))) st
  else if dim.contains '(' then do
    let size ← compositeSize dimSizes (pySplitWs (stripParens dim)) 1
    .ok { st with finalShape := st.finalShape ++ [size] }
  else
    match dictGet? axesLengths dim with
    | some v =>
      match dictGet? dimSizes dim with
      | none => .ok ⟨st.finalShape ++ [v], st.repeats ++ [(st.finalShape.length, v)]⟩
      | some s =>
        if s = 1 then .ok ⟨st.finalShape ++ [v], st.repeats ++ [(st.finalShape.length, v)]⟩
        else .ok { st with finalShape := st.finalShape ++ [s] }
    | none =>
      match dictGet? dimSizes dim with
      | some s => .ok { st with finalShape := st.finalShape ++ [s] }
      | none => .error (.keyError dim)

/-- The two executor loops over the sorted repeat instructions: first insert
a fresh length-one axis per instruction, then expand once more and repeat. -/
def applyRepeats {α : Type} (a : NpArray α) (rs : List (Nat × Nat)) : Except Err (NpArray α) :=
  if rs = [] then .ok a
  else do
    let sorted := sortRepeats rs
    let a1 ← sorted.foldlM (fun cur x => expandDims cur x.1) a
    sorted.foldlM (fun cur x => do
      let e ← expandDims cur x.1
      npRepeat e x.2 x.1) a1

/-- Modelled from the spec: broadcast-expanding a length-one axis to `size`,
materialising copies along it — on the flat data each block of `inner`
elements behind the axis is repeated `size` times. -/
def broadcastAxis {α : Type} (a : NpArray α) (axis size : Nat) : Except Err (NpArray α) :=
  if axis < a.shape.length then
    if a.shape.getD axis 0 = 1 then
      .ok ⟨a.shape.take axis ++ size :: a.shape.drop (axis + 1),
        (((listChunks ((a.shape.drop (axis + 1)).prod) a.data).map
          (fun c => (List.replicate size c).flatten)).flatten)⟩
    else .error .axesError
  else .error .axesError

/-- Modelled from the spec: the reference executor of section 4.6, step 2 —
apply the repeat instructions in descending index order, and for each one
insert exactly one new axis of size 1 at the target index and then
broadcast-expand that single axis to the target size. -/
def referenceRepeats {α : Type} (a : NpArray α) (rs : List (Nat × Nat)) :
    Except Err (NpArray α) :=
  (sortRepeats rs).foldlM (fun cur x => do
    let e ← expandDims cur x.1
    broadcastAxis e x.1 x.2) a

/-- `current.reshape(final_shape)` wrapped in the source's `try`: numpy accepts
the reshape exactly when the element counts agree, and the source converts the
`ValueError` into an `EinopsError`. -/
def finalReshape {α : Type} (a : NpArray α) (fs : List Nat) : Except Err (NpArray α) :=
  if a.shape.prod = fs.prod then .ok ⟨fs, a.data⟩ else .error (.reshapeError fs)

/-- Validation and parsing prologue of `rearrange`, in source order. -/
def prepPattern (pattern : List Char) (axesLengths : PyDict) :
    Except Err (List Tok × List Tok) := do
  validateAxesLengths pattern axesLengths
  let (inputDims, outputDims) ← parsePattern pattern
  if (inputDims ++ outputDims).any (fun d => d.contains '(' && !(d.getLast? = some ')')) then
    throw .mismatchedParens
  if 1 < (inputDims.filter (fun d => d = ['.', '.', '.'])).length then
    throw .multipleEllipsis
  if (inputDims.contains ['.', '.', '.']) ≠ (outputDims.contains ['.', '.', '.']) then
    throw .ellipsisAsymmetry
  .ok (inputDims, outputDims)

/-- The ellipsis-expansion stage: replace `...` on both sides by the synthetic
names, or pass the token lists through unchanged. -/
def expandEllipsis (ndim : Nat) (inputDims outputDims : List Tok) :
    Except Err (List Tok × List Tok × Nat) :=
  if inputDims.contains ['.', '.', '.'] then
    let nExplicit := (inputDims.filter (fun d => d ≠ ['.', '.', '.'])).length
    if ndim < nExplicit then .error .notEnoughDims
    else
      let nEll := ndim - nExplicit
      .ok (expandDimsList inputDims (inputDims.indexOf ['.', '.', '.']) nEll,
        expandDimsList outputDims (outputDims.indexOf ['.', '.', '.']) nEll, nEll)
  else .ok (inputDims, outputDims, 0)

/-- The fast-path test and the permutation-building loop, returning the
possibly transposed array. -/
def fastTranspose {α : Type} [Inhabited α] (tensor : NpArray α) (st : ResolveState)
    (fullInput fullOutput : List Tok) : Except Err (NpArray α) :=
  if (!(fullInput ++ fullOutput).any (fun d => d.contains '(')) &&
      fullOutput.all (fun d => d = ['.', '.', '.'] || (dictGet? st.dimToPos d).isSome) then
    let perm := (fullOutput.foldl (fun acc d =>
      if d ≠ ['.', '.', '.'] ∧ ¬ acc.2.contains d then
        (acc.1 ++ [(dictGet? st.dimToPos d).getD 0], acc.2 ++ [d])
      else acc) (([] : List Nat), ([] : List Tok))).1
    if 1 < perm.length then npTranspose tensor perm else .ok tensor
  else .ok tensor

/-- The full `rearrange(tensor, pattern, **axes_lengths)` pipeline. -/
def rearrange {α : Type} [Inhabited α] (tensor : NpArray α) (pattern : String)
    (axesLengths : List (String × Nat)) : Except Err (NpArray α) := do
  let aL : PyDict := axesLengths.map (fun p => (p.1.toList, p.2))
  let (inputDims, outputDims) ← prepPattern pattern.toList aL
  let (fullInput, fullOutput, nEll) ← expandEllipsis tensor.shape.length inputDims outputDims
  let st ← resolveInput tensor.shape aL fullInput
  let current ← fastTranspose tensor st fullInput fullOutput
  let plan ← fullOutput.foldlM (planDim aL st.dimSizes nEll) ⟨[], []⟩
  let current2 ← applyRepeats current plan.repeats
  finalReshape current2 plan.finalShape

/-! ### Supporting lemmas -/

/-- Tokens on which the resolver binds the current shape entry directly:
synthetic-style names and plain names without a caller hint. -/
def directTok (aL : PyDict) (d : Tok) : Prop :=
  strStarts d ['_', 'd'] = true ∨ (d.contains '(' = false ∧ dictGet? aL d = none)

instance (aL : PyDict) (d : Tok) : Decidable (directTok aL d) := by
  unfold directTok; infer_instance

/-- Resolver bindings written by a run over direct tokens, sizes side. -/
def bindSizes (shape : List Nat) : Nat → List Tok → PyDict → PyDict
  | _, [], d => d
  | base, t :: ts, d => bindSizes shape (base + 1) ts (dictInsert d t (shape.getD base 0))

/-- Resolver bindings written by a run over direct tokens, position side. -/
def bindPos : Nat → List Tok → PyDict → PyDict
  | _, [], d => d
  | base, t :: ts, d => bindPos (base + 1) ts (dictInsert d t base)

/-- Index of the last occurrence of a token. -/
def lastIdxOf (t : Tok) : List Tok → Option Nat
  | [] => none
  | d :: ds =>
    match lastIdxOf t ds with
    | some k => some (k + 1)
    | none => if d = t then some 0 else none

/-- Number of members of a composite group without a caller-supplied length. -/
def unknownCount (aL : PyDict) (comps : List Tok) : Nat :=
  (comps.filter (fun c => (dictGet? aL c).isNone)).length

/-- Product of the caller-supplied lengths of the known members. -/
def knownProd (aL : PyDict) : List Tok → Nat
  | [] => 1
  | c :: cs =>
    match dictGet? aL c with
    | some v => v * knownProd aL cs
    | none => knownProd aL cs

/-- The first member without a caller-supplied length, if any. -/
def firstUnknown (aL : PyDict) (comps : List Tok) : Option Tok :=
  comps.find? (fun c => (dictGet? aL c).isNone)

/-- The `dim_sizes` writes performed for the known members. -/
def insertKnown (aL : PyDict) (comps : List Tok) (s : PyDict) : PyDict :=
  comps.foldl (fun d c =>
    match dictGet? aL c with
    | some v => dictInsert d c v
    | none => d) s

def digitsVal (l : List Char) : Nat := l.foldl (fun a c => a * 10 + (c.toNat - 48)) 0

theorem exceptBind_ok {ε α β : Type} (a : α) (f : α → Except ε β) :
    (Except.ok a >>= f) = f a := rfl

theorem exceptBind_error {ε α β : Type} (e : ε) (f : α → Except ε β) :
    ((Except.error e : Except ε α) >>= f) = .error e := rfl

theorem exceptBind_pure {ε α β : Type} (a : α) (f : α → Except ε β) :
    ((pure a : Except ε α) >>= f) = f a := rfl

theorem dictGet?_insert (d : PyDict) (k : Tok) (v : Nat) (t : Tok) :
    dictGet? (dictInsert d k v) t = if k = t then some v else dictGet? d t := by
  by_cases h : k = t
  · subst h; simp [dictGet?, dictInsert, List.lookup]
  · have hbeq : (t == k) = false := beq_eq_false_iff_ne.mpr (fun hh => h hh.symm)
    simp [dictGet?, dictInsert, List.lookup, hbeq, h]

theorem resolveDim_direct (shape : List Nat) (aL : PyDict) (st : ResolveState) (d : Tok)
    (hd : directTok aL d) (hpos : st.pos < shape.length) :
    resolveDim shape aL st d =
      .ok ⟨dictInsert st.dimSizes d (shape.getD st.pos 0),
        dictInsert st.dimToPos d st.pos, st.pos + 1⟩ := by
  by_cases hs : strStarts d ['_', 'd'] = true
  · unfold resolveDim
    rw [if_pos hs, if_pos hpos]
  · rcases hd with hd | ⟨hpar, hnone⟩
    · exact absurd hd hs
    · unfold resolveDim
      rw [if_neg hs, if_neg (by simpa using hpar), if_neg (by omega), hnone]

theorem resolveFold_direct (shape : List Nat) (aL : PyDict) :
    ∀ (dims : List Tok) (st : ResolveState),
      (∀ d ∈ dims, directTok aL d) → st.pos + dims.length ≤ shape.length →
      dims.foldlM (resolveDim shape aL) st =
        .ok ⟨bindSizes shape st.pos dims st.dimSizes,
          bindPos st.pos dims st.dimToPos, st.pos + dims.length⟩ := by
  intro dims
  induction dims with
  | nil =>
    intro st _ _
    simp only [List.foldlM_nil, bindSizes, bindPos, List.length_nil, Nat.add_zero]
    rfl
  | cons d ds ih =>
    intro st hdir hlen
    have hpos : st.pos < shape.length := by simp at hlen; omega
    rw [List.foldlM_cons, resolveDim_direct shape aL st d (hdir d (by simp)) hpos,
      exceptBind_ok, ih _ (fun x hx => hdir x (by simp [hx])) (by simp at hlen ⊢; omega)]
    simp only [bindSizes, bindPos, List.length_cons]
    have : st.pos + 1 + ds.length = st.pos + (ds.length + 1) := by omega
    rw [this]

theorem dictGet?_bindSizes (shape : List Nat) :
    ∀ (dims : List Tok) (base : Nat) (d0 : PyDict) (t : Tok),
      dictGet? (bindSizes shape base dims d0) t =
        match lastIdxOf t dims with
        | some k => some (shape.getD (base + k) 0)
        | none => dictGet? d0 t := by
  intro dims
  induction dims with
  | nil => intro base d0 t; simp [bindSizes, lastIdxOf]
  | cons d ds ih =>
    intro base d0 t
    rw [bindSizes, ih, lastIdxOf]
    rcases h : lastIdxOf t ds with _ | k
    · simp only [h, dictGet?_insert]
      by_cases hdt : d = t <;> simp [hdt]
    · simp only [h]
      have : base + 1 + k = base + (k + 1) := by omega
      rw [this]

theorem dictGet?_bindPos :
    ∀ (dims : List Tok) (base : Nat) (d0 : PyDict) (t : Tok),
      dictGet? (bindPos base dims d0) t =
        match lastIdxOf t dims with
        | some k => some (base + k)
        | none => dictGet? d0 t := by
  intro dims
  induction dims with
  | nil => intro base d0 t; simp [bindPos, lastIdxOf]
  | cons d ds ih =>
    intro base d0 t
    rw [bindPos, ih, lastIdxOf]
    rcases h : lastIdxOf t ds with _ | k
    · simp only [h, dictGet?_insert]
      by_cases hdt : d = t <;> simp [hdt]
    · simp only [h]
      have : base + 1 + k = base + (k + 1) := by omega
      rw [this]

theorem listChunksAux_fuel {α : Type} :
    ∀ (f1 f2 n : Nat) (l : List α), l.length < f1 → l.length < f2 → 0 < n →
      listChunksAux f1 n l = listChunksAux f2 n l := by
  intro f1
  induction f1 with
  | zero => intro f2 n l h1 h2 hn; omega
  | succ f1 ih =>
    intro f2 n l h1 h2 hn
    cases f2 with
    | zero => omega
    | succ f2 =>
      cases l with
      | nil => rfl
      | cons x xs =>
        show (x :: xs).take n :: listChunksAux f1 n ((x :: xs).drop n) =
          (x :: xs).take n :: listChunksAux f2 n ((x :: xs).drop n)
        rw [ih f2 n _ (by simp at h1 ⊢; omega) (by simp at h2 ⊢; omega) hn]

theorem listChunks_cons {α : Type} (n : Nat) (x : α) (xs : List α) (hn : 0 < n) :
    listChunks n (x :: xs) = (x :: xs).take n :: listChunks n ((x :: xs).drop n) := by
  show listChunksAux ((x :: xs).length + 1) n (x :: xs) = _
  rw [show listChunksAux ((x :: xs).length + 1) n (x :: xs) =
      (x :: xs).take n :: listChunksAux ((x :: xs).length) n ((x :: xs).drop n) from rfl,
    listChunksAux_fuel ((x :: xs).length) (((x :: xs).drop n).length + 1) n _
      (by simp; omega) (by omega) hn]
  rfl

theorem length_flatten_replicate {α : Type} (k : Nat) (c : List α) :
    (List.replicate k c).flatten.length = k * c.length := by
  induction k with
  | zero => simp
  | succ k ih =>
    rw [List.replicate_succ, List.flatten_cons, List.length_append, ih, Nat.succ_mul]
    omega

theorem flatten_replicate_getD {α : Type} [Inhabited α] (c : List α) :
    ∀ (k r i : Nat), i < c.length → r < k →
      (List.replicate k c).flatten.getD (r * c.length + i) default = c.getD i default := by
  intro k
  induction k with
  | zero => intro r i hi hr; omega
  | succ k ih =>
    intro r i hi hr
    rw [List.replicate_succ, List.flatten_cons]
    cases r with
    | zero =>
      rw [Nat.zero_mul, Nat.zero_add]
      exact List.getD_append _ _ _ _ hi
    | succ r =>
      have hm : (r + 1) * c.length + i = c.length + (r * c.length + i) := by ring
      rw [hm, List.getD_append_right _ _ _ _ (Nat.le_add_right _ _),
        Nat.add_sub_cancel_left]
      exact ih r i hi (by omega)

theorem getD_take_of_lt {α : Type} [Inhabited α] (l : List α) (m i : Nat) (hi : i < m)
    (hl : i < l.length) : (l.take m).getD i default = l.getD i default := by
  have h1 : i < (l.take m).length := by simp; omega
  rw [List.getD_eq_getElem _ _ h1, List.getD_eq_getElem _ _ hl, List.getElem_take]

theorem getD_drop_add {α : Type} [Inhabited α] (l : List α) (m i : Nat)
    (h : m + i < l.length) :
    (l.drop m).getD i default = l.getD (m + i) default := by
  have h1 : i < (l.drop m).length := by simp; omega
  rw [List.getD_eq_getElem _ _ h1, List.getD_eq_getElem _ _ h, List.getElem_drop]

/-- How a chunk-and-replicate pass moves elements: block `q` of length `m`,
repeated `k` times, read back at repetition `r`, offset `i`. -/
theorem chunkRep_getD {α : Type} [Inhabited α] (m k : Nat) (hm : 0 < m) :
    ∀ (q : Nat) (d : List α) (r i : Nat), i < m → r < k → q * m + m ≤ d.length →
      (((listChunks m d).map (fun c => (List.replicate k c).flatten)).flatten).getD
        ((q * k + r) * m + i) default = d.getD (q * m + i) default := by
  intro q
  induction q with
  | zero =>
    intro d r i hi hr hlen
    cases d with
    | nil => simp at hlen; omega
    | cons x xs =>
      rw [listChunks_cons m x xs hm, List.map_cons, List.flatten_cons]
      have htl : ((x :: xs).take m).length = m := by simp at hlen ⊢; omega
      have hidx : (0 * k + r) * m + i = r * m + i := by ring
      have hlt : r * m + i < (List.replicate k ((x :: xs).take m)).flatten.length := by
        rw [length_flatten_replicate, htl]
        calc r * m + i < r * m + m := by omega
          _ = (r + 1) * m := by ring
          _ ≤ k * m := Nat.mul_le_mul_right m (by omega)
      rw [hidx, List.getD_append _ _ _ _ hlt]
      have := flatten_replicate_getD ((x :: xs).take m) k r i (by omega) hr
      rw [htl] at this
      rw [this, Nat.zero_mul, Nat.zero_add]
      exact getD_take_of_lt _ m i hi (by simp at hlen ⊢; omega)
  | succ q ih =>
    intro d r i hi hr hlen
    have hexp : (q + 1) * m = q * m + m := by ring
    cases d with
    | nil => simp at hlen; omega
    | cons x xs =>
      rw [listChunks_cons m x xs hm, List.map_cons, List.flatten_cons]
      have htl : ((x :: xs).take m).length = m := by simp at hlen ⊢; omega
      have hlen1 : (List.replicate k ((x :: xs).take m)).flatten.length = k * m := by
        rw [length_flatten_replicate, htl]
      have hidx : ((q + 1) * k + r) * m + i = k * m + ((q * k + r) * m + i) := by ring
      rw [hidx, List.getD_append_right _ _ _ _ (by rw [hlen1]; omega), hlen1,
        Nat.add_sub_cancel_left]
      have hdl : q * m + m ≤ ((x :: xs).drop m).length := by simp at hlen ⊢; omega
      rw [ih ((x :: xs).drop m) r i hi hr hdl]
      have harith : (q + 1) * m + i = m + (q * m + i) := by ring
      rw [harith]
      exact getD_drop_add _ m _ (by simp at hlen ⊢; omega)

/-! ### Composite-group resolution: characterisation -/

theorem scanComponents_cons (aL : PyDict) (dim c : Tok) (cs : List Tok) (k : Nat)
    (u : Option Tok) (s : PyDict) :
    scanComponents aL dim (c :: cs) k u s =
      match dictGet? aL c with
      | some v => scanComponents aL dim cs (k * v) u (dictInsert s c v)
      | none =>
        match u with
        | some _ => .error (.multipleUnknown dim)
        | none => scanComponents aL dim cs k (some c) s := rfl

theorem scanComponents_spec (aL : PyDict) (dim : Tok) :
    ∀ (comps : List Tok) (k : Nat) (u : Option Tok) (s : PyDict),
      scanComponents aL dim comps k u s =
        if 2 ≤ (if u.isSome then 1 else 0) + unknownCount aL comps then
          .error (.multipleUnknown dim)
        else
          .ok (k * knownProd aL comps, u.or (firstUnknown aL comps),
            insertKnown aL comps s) := by
  intro comps
  induction comps with
  | nil =>
    intro k u s
    have h0 : ¬ 2 ≤ (if u.isSome then 1 else 0) + unknownCount aL [] := by
      unfold unknownCount; cases u <;> simp
    rw [if_neg h0]
    show Except.ok (k, u, s) = _
    cases u <;> simp [knownProd, firstUnknown, insertKnown, Option.or]
  | cons c cs ih =>
    intro k u s
    rcases hc : dictGet? aL c with _ | v
    · have hcount : unknownCount aL (c :: cs) = 1 + unknownCount aL cs := by
        unfold unknownCount; simp [List.filter_cons, hc, Nat.add_comm]
      have hkp : knownProd aL (c :: cs) = knownProd aL cs := by
        simp only [knownProd, hc]
      have hfu : firstUnknown aL (c :: cs) = some c := by
        unfold firstUnknown; simp [List.find?_cons, hc]
      have hik : insertKnown aL (c :: cs) s = insertKnown aL cs s := by
        unfold insertKnown; simp [List.foldl_cons, hc]
      rw [scanComponents_cons, hc]
      cases u with
      | some t =>
        have hge : 2 ≤ (if (some t).isSome then 1 else 0) + unknownCount aL (c :: cs) := by
          rw [hcount]; simp only [Option.isSome_some, if_true]; omega
        rw [if_pos hge]
      | none =>
        show scanComponents aL dim cs k (some c) s = _
        rw [ih, hcount, hkp, hfu, hik]
        by_cases h2 : 2 ≤ (if (some c).isSome then 1 else 0) + unknownCount aL cs
        · rw [if_pos h2, if_pos (by simp at h2 ⊢; omega)]
        · rw [if_neg h2, if_neg (by simp at h2 ⊢; omega)]
          simp [Option.or]
    · have hcount : unknownCount aL (c :: cs) = unknownCount aL cs := by
        unfold unknownCount; simp [List.filter_cons, hc]
      have hkp : knownProd aL (c :: cs) = v * knownProd aL cs := by
        simp only [knownProd, hc]
      have hfu : firstUnknown aL (c :: cs) = firstUnknown aL cs := by
        unfold firstUnknown; simp [List.find?_cons, hc]
      have hik : insertKnown aL (c :: cs) s = insertKnown aL cs (dictInsert s c v) := by
        unfold insertKnown; simp [List.foldl_cons, hc]
      rw [scanComponents_cons, hc]
      show scanComponents aL dim cs (k * v) u (dictInsert s c v) = _
      rw [ih, hcount, hkp, hfu, hik]
      by_cases h2 : 2 ≤ (if u.isSome then 1 else 0) + unknownCount aL cs
      · rw [if_pos h2, if_pos h2]
      · rw [if_neg h2, if_neg h2, Nat.mul_assoc]

/-! ### Synthetic names: characters and injectivity -/

theorem toNat_digitChar (d : Nat) (hd : d < 10) : (Char.ofNat (48 + d)).toNat = 48 + d := by
  interval_cases d <;> decide

theorem digitChar_props (d : Nat) (hd : d < 10) :
    Char.ofNat (48 + d) ≠ '(' ∧ Char.ofNat (48 + d) ≠ '.' := by
  interval_cases d <;> exact ⟨by decide, by decide⟩

theorem natDigitsAux_eq (n : Nat) : ∀ f, n < f → natDigitsAux f n = natDigits n := by
  induction n using Nat.strong_induction_on with
  | _ n ih =>
    intro f hf
    cases f with
    | zero => omega
    | succ f =>
      by_cases h10 : n < 10
      · rw [natDigitsAux, if_pos h10]
        rw [natDigits, natDigitsAux, if_pos h10]
      · have hdiv : n / 10 < n := Nat.div_lt_self (by omega) (by omega)
        rw [natDigitsAux, if_neg h10, ih (n / 10) hdiv f (by omega)]
        conv_rhs => rw [natDigits, natDigitsAux, if_neg h10]
        rw [ih (n / 10) hdiv n hdiv]

theorem digitsVal_append (xs : List Char) (c : Char) :
    digitsVal (xs ++ [c]) = digitsVal xs * 10 + (c.toNat - 48) := by
  unfold digitsVal
  rw [List.foldl_append]
  rfl

theorem digitsVal_natDigits : ∀ n, digitsVal (natDigits n) = n := by
  intro n
  induction n using Nat.strong_induction_on with
  | _ n ih =>
    by_cases h10 : n < 10
    · rw [natDigits, natDigitsAux, if_pos h10]
      unfold digitsVal
      simp [List.foldl_cons, toNat_digitChar n h10]
    · have hdiv : n / 10 < n := Nat.div_lt_self (by omega) (by omega)
      rw [natDigits, natDigitsAux, if_neg h10, natDigitsAux_eq (n / 10) n hdiv,
        digitsVal_append, ih (n / 10) hdiv, toNat_digitChar (n % 10) (Nat.mod_lt _ (by omega))]
      omega

theorem natDigits_inj {a b : Nat} (h : natDigits a = natDigits b) : a = b := by
  have ha := digitsVal_natDigits a
  rw [h, digitsVal_natDigits] at ha
  omega

theorem synthName_inj {a b : Nat} (h : synthName a = synthName b) : a = b := by
  unfold synthName at h
  simp only [List.cons.injEq, true_and] at h
  exact natDigits_inj h

theorem synthName_starts (i : Nat) : strStarts (synthName i) ['_', 'd'] = true := by
  simp [synthName, strStarts]

theorem mem_natDigitsAux_digit :
    ∀ (fuel n : Nat) (c : Char), c ∈ natDigitsAux fuel n → ∃ d, d < 10 ∧ c = Char.ofNat (48 + d) := by
  intro fuel
  induction fuel with
  | zero => intro n c h; rw [natDigitsAux] at h; simp at h
  | succ fuel ih =>
    intro n c h
    rw [natDigitsAux] at h
    by_cases h10 : n < 10
    · rw [if_pos h10] at h
      simp at h
      exact ⟨n, h10, h⟩
    · rw [if_neg h10] at h
      rcases List.mem_append.mp h with h | h
      · exact ih _ _ h
      · simp at h
        exact ⟨n % 10, Nat.mod_lt _ (by omega), h⟩

theorem synthName_not_paren (i : Nat) : (synthName i).contains '(' = false := by
  have hmem : '(' ∉ synthName i := by
    intro hm
    rw [synthName, List.mem_cons, List.mem_cons] at hm
    rcases hm with h | h | h
    · exact absurd h (by decide)
    · exact absurd h (by decide)
    · rcases mem_natDigitsAux_digit (i + 1) i '(' h with ⟨d, hd, hc⟩
      exact (digitChar_props d hd).1 hc.symm
  simp [hmem]

theorem synthName_ne_ell (i : Nat) : synthName i ≠ ['.', '.', '.'] := by
  unfold synthName
  simp

/-! ### Last occurrence and ranges of synthetic names -/

theorem lastIdxOf_append (t : Tok) (xs ys : List Tok) :
    lastIdxOf t (xs ++ ys) =
      match lastIdxOf t ys with
      | some k => some (xs.length + k)
      | none => lastIdxOf t xs := by
  induction xs with
  | nil =>
    rw [List.nil_append]
    rcases lastIdxOf t ys with _ | k <;> simp [lastIdxOf]
  | cons x xs ih =>
    rw [List.cons_append, lastIdxOf, ih, lastIdxOf]
    rcases hys : lastIdxOf t ys with _ | k
    · rfl
    · simp only [List.length_cons]
      congr 1
      omega

theorem lastIdxOf_synth (i : Nat) : ∀ (n j : Nat),
    lastIdxOf (synthName i) ((List.range' j n).map synthName) =
      if j ≤ i ∧ i < j + n then some (i - j) else none := by
  intro n
  induction n with
  | zero => intro j; rw [if_neg (by omega)]; rfl
  | succ n ih =>
    intro j
    rw [List.range'_succ, List.map_cons, lastIdxOf, ih (j + 1)]
    by_cases h1 : j + 1 ≤ i ∧ i < j + 1 + n
    · rw [if_pos h1]
      show some (i - (j + 1) + 1) = _
      rw [if_pos (by omega)]
      congr 1
      omega
    · rw [if_neg h1]
      by_cases he : i = j
      · subst he
        show (if synthName i = synthName i then some 0 else none) = _
        rw [if_pos rfl, if_pos (by omega)]
        congr 1
        omega
      · show (if synthName j = synthName i then some 0 else none) = _
        rw [if_neg (fun hc => he (synthName_inj hc).symm), if_neg (by omega)]

/-! ### Planner lemmas -/

theorem planDim_plain (aL S : PyDict) (nE : Nat) (p : PlanState) (t : Tok) (v : Nat)
    (hne : t ≠ ['.', '.', '.']) (hpar : t.contains '(' = false)
    (haL : dictGet? aL t = none) (hS : dictGet? S t = some v) :
    planDim aL S nE p t = .ok ⟨p.finalShape ++ [v], p.repeats⟩ := by
  unfold planDim
  rw [if_neg hne, if_neg (by simpa using hpar), haL, hS]

theorem planFold_synth (aL S : PyDict) (nE : Nat) (f : Nat → Nat) :
    ∀ (m j : Nat) (p : PlanState),
      (∀ i, j ≤ i → i < j + m → dictGet? aL (synthName i) = none) →
      (∀ i, j ≤ i → i < j + m → dictGet? S (synthName i) = some (f i)) →
      ((List.range' j m).map synthName).foldlM (planDim aL S nE) p =
        .ok ⟨p.finalShape ++ (List.range' j m).map f, p.repeats⟩ := by
  intro m
  induction m with
  | zero =>
    intro j p _ _
    simp only [List.range'_zero, List.map_nil, List.foldlM_nil, List.append_nil]
    rfl
  | succ m ih =>
    intro j p haL hS
    rw [List.range'_succ, List.map_cons, List.foldlM_cons,
      planDim_plain aL S nE p (synthName j) (f j) (synthName_ne_ell j)
        (synthName_not_paren j) (haL j (by omega) (by omega)) (hS j (by omega) (by omega)),
      exceptBind_ok,
      ih (j + 1) ⟨p.finalShape ++ [f j], p.repeats⟩
        (fun i h1 h2 => haL i (by omega) (by omega))
        (fun i h1 h2 => hS i (by omega) (by omega))]
    simp [List.append_assoc]

theorem planFold_synth_range (aL S : PyDict) (nE : Nat) (f : Nat → Nat) (n : Nat)
    (p : PlanState)
    (haL : ∀ i, i < n → dictGet? aL (synthName i) = none)
    (hS : ∀ i, i < n → dictGet? S (synthName i) = some (f i)) :
    ((List.range n).map synthName).foldlM (planDim aL S nE) p =
      .ok ⟨p.finalShape ++ (List.range n).map f, p.repeats⟩ := by
  rw [List.range_eq_range' n]
  exact planFold_synth aL S nE f n 0 p
    (fun i _ h2 => haL i (by omega)) (fun i _ h2 => hS i (by omega))

theorem getD_map_range' (L : List Nat) :
    ∀ (m j : Nat), j + m ≤ L.length →
      (List.range' j m).map (fun i => L.getD i 0) = (L.drop j).take m := by
  intro m
  induction m with
  | zero => intro j _; simp
  | succ m ih =>
    intro j hj
    rw [List.range'_succ, List.map_cons, ih (j + 1) (by omega)]
    have hjl : j < L.length := by omega
    rw [List.getD_eq_getElem _ _ hjl]
    rw [show L.drop j = L[j] :: L.drop (j + 1) from (List.getElem_cons_drop L j hjl).symm]
    rfl

/-- Composing `rearrange` from the values of its stages. -/
theorem rearrange_stages {α : Type} [Inhabited α] (tensor : NpArray α) (pattern : String)
    (axesLengths : List (String × Nat)) (shape : List Nat)
    (inputDims outputDims fullInput fullOutput : List Tok)
    (nEll : Nat) (st : ResolveState) (current : NpArray α) (plan : PlanState)
    (current2 : NpArray α) (out : Except Err (NpArray α))
    (hs : tensor.shape = shape)
    (h1 : prepPattern pattern.toList (axesLengths.map (fun p => (p.1.toList, p.2))) =
      .ok (inputDims, outputDims))
    (h2 : expandEllipsis shape.length inputDims outputDims =
      .ok (fullInput, fullOutput, nEll))
    (h3 : resolveInput shape (axesLengths.map (fun p => (p.1.toList, p.2))) fullInput =
      .ok st)
    (h4 : fastTranspose tensor st fullInput fullOutput = .ok current)
    (h5 : fullOutput.foldlM
      (planDim (axesLengths.map (fun p => (p.1.toList, p.2))) st.dimSizes nEll) ⟨[], []⟩ =
      .ok plan)
    (h6 : applyRepeats current plan.repeats = .ok current2)
    (h7 : finalReshape current2 plan.finalShape = out) :
    rearrange tensor pattern axesLengths = out := by
  unfold rearrange
  simp only [hs, h1, h2, h3, h4, h5, h6, exceptBind_ok]
  exact h7

/-! ### Helper lemmas for claim C4 -/

theorem firstUnknown_eq_none (aL : PyDict) (comps : List Tok)
    (h : unknownCount aL comps = 0) : firstUnknown aL comps = none := by
  unfold unknownCount at h
  rw [List.length_eq_zero] at h
  unfold firstUnknown
  rw [List.find?_eq_none]
  intro x hx hpx
  have : x ∈ comps.filter (fun c => (dictGet? aL c).isNone) := List.mem_filter.mpr ⟨hx, hpx⟩
  rw [h] at this
  simp at this

theorem scanComponents_none_spec (aL : PyDict) (dim : Tok) (comps : List Tok) (k : Nat)
    (s : PyDict) :
    scanComponents aL dim comps k none s =
      if 2 ≤ unknownCount aL comps then .error (.multipleUnknown dim)
      else .ok (k * knownProd aL comps, firstUnknown aL comps, insertKnown aL comps s) := by
  rw [scanComponents_spec]
  simp [Option.or]

theorem resolveComposite_of_scan_error (aL : PyDict) (st : ResolveState) (dim : Tok)
    (total : Nat) (e : Err)
    (h : scanComponents aL dim (pySplitWs (stripParens dim)) 1 none st.dimSizes =
      .error e) :
    resolveComposite aL st dim total = .error e := by
  unfold resolveComposite
  simp only [h, exceptBind_error]

theorem resolveComposite_one_unknown (aL : PyDict) (st : ResolveState) (dim : Tok)
    (total k : Nat) (uu : Tok) (sz : PyDict) (hk : k ≠ 0)
    (h : scanComponents aL dim (pySplitWs (stripParens dim)) 1 none st.dimSizes =
      .ok (k, some uu, sz)) :
    resolveComposite aL st dim total =
      if total % k ≠ 0 then .error (.nonDivisible total k)
      else .ok ⟨dictInsert sz uu (total / k),
        (pySplitWs (stripParens dim)).foldl (fun d c => dictInsert d c st.pos) st.dimToPos,
        st.pos + 1⟩ := by
  unfold resolveComposite
  simp only [h, exceptBind_ok]
  by_cases h2 : total % k ≠ 0 <;> simp [hk, h2, exceptBind_ok, exceptBind_error]

theorem resolveComposite_no_unknown (aL : PyDict) (st : ResolveState) (dim : Tok)
    (total k : Nat) (sz : PyDict)
    (h : scanComponents aL dim (pySplitWs (stripParens dim)) 1 none st.dimSizes =
      .ok (k, none, sz)) :
    resolveComposite aL st dim total =
      if total ≠ k then .error (.sizeMismatchComposite dim k total)
      else .ok ⟨sz,
        (pySplitWs (stripParens dim)).foldl (fun d c => dictInsert d c st.pos) st.dimToPos,
        st.pos + 1⟩ := by
  unfold resolveComposite
  simp only [h, exceptBind_ok]
  by_cases h2 : total ≠ k <;> simp [h2, exceptBind_ok, exceptBind_error]

/-! ### Claim theorems -/

/-- C1 (counterexample to the claim as stated): for the concrete array of
shape `(3,1,5)` and `rearrange(x, 'a b c -> a b c', b=4)`, the call does not
succeed with shape `(3,4,5)`: it raises the reshape error. -/
theorem widen_hint_same_name_fails_concrete :
    rearrange (⟨[3,1,5], List.range 15⟩ : NpArray Nat) "a b c -> a b c" [("b", 4)] =
      .error (.reshapeError [3,4,5]) := by rfl

/-- C1 (amended): when a plain token appears on both sides and the caller
supplies a hint `L > 1` for a size-1 axis, `DimSizes` holds the caller value,
so the planner records no repeat instruction and the final reshape fails with
the reshape error carrying the requested shape; concretely every array of
shape `(3,1,5)` under `'a b c -> a b c', b=4` raises it with shape `(3,4,5)`. -/
theorem widen_hint_same_name_reshape_error {α : Type} [Inhabited α] (d : List α) :
    rearrange ⟨[3,1,5], d⟩ "a b c -> a b c" [("b", 4)] =
      .error (.reshapeError [3,4,5]) := by rfl

/-- C2 (counterexample to the claim as stated): for the duplicated input
pattern `a a` over shape `(2,3)`, `InputPosition['a']` is `1`, the position of
the last occurrence, not `0`, the position of the first. -/
theorem duplicate_name_position_is_not_first :
    (resolveInput [2,3] [] [['a'], ['a']]).map (fun st => dictGet? st.dimToPos ['a']) =
        .ok (some 1) ∧
      (resolveInput [2,3] [] [['a'], ['a']]).map (fun st => dictGet? st.dimToPos ['a']) ≠
        .ok (some 0) := by
  exact ⟨rfl, by decide⟩

/-- C2 (amended): for every input run over plain unhinted tokens that stays
within the array rank, `InputPosition` maps a duplicated name to the 0-based
position of its *last* occurrence (later bindings overwrite earlier ones), and
this is the value the fast-path permutation reads. -/
theorem duplicate_name_position_is_last (shape : List Nat) (aL : PyDict) (dims : List Tok)
    (t : Tok) (k : Nat)
    (hdir : ∀ d ∈ dims, directTok aL d)
    (hlen : dims.length ≤ shape.length)
    (hlast : lastIdxOf t dims = some k) :
    (resolveInput shape aL dims).map (fun st => dictGet? st.dimToPos t) = .ok (some k) := by
  unfold resolveInput
  rw [resolveFold_direct shape aL dims ⟨[], [], 0⟩ hdir (by simpa using hlen)]
  show Except.ok (dictGet? (bindPos 0 dims []) t) = _
  rw [dictGet?_bindPos, hlast]
  simp

theorem duplicate_name_position_is_last_witness :
    (resolveInput [2,3] [] [['a'], ['a']]).map (fun st => dictGet? st.dimToPos ['a']) =
      .ok (some 1) :=
  duplicate_name_position_is_last [2,3] [] [['a'], ['a']] ['a'] 1
    (by decide) (by decide) (by decide)

/-- C3 (counterexample to the claim as stated): when the input shape is
exhausted and the next token is a composite group, the size lookup indexes
past the shape and the call fails with the raw index error, not with the
`NotEnoughDimensions` condition of the single `EinopsError` kind. -/
theorem composite_exhaustion_is_index_error :
    rearrange (⟨[3], [0,1,2]⟩ : NpArray Nat) "a (b c) -> a b c" [("b",1),("c",1)] =
        .error .indexError ∧
      Err.indexError ≠ Err.notEnoughDims := by
  constructor
  · rfl
  · intro h
    cases h

/-- C3 (amended): the `NotEnoughDimensions` guard protects only plain named
tokens: for every array of the spec's example shape `(3,4)`,
`rearrange(x, 'a b c -> c b a')` fails with `NotEnoughDimensions`; a composite
or `_d`-prefixed token in the same situation escapes as an index error. -/
theorem plain_exhaustion_not_enough_dims {α : Type} [Inhabited α] (d : List α) :
    rearrange ⟨[3,4], d⟩ "a b c -> c b a" [] = .error .notEnoughDims := by rfl

/-- C4: composite-group resolution — two or more members without caller
lengths raise `MultipleUnknownDimensions`; with exactly one unknown member it
is bound to `total / known` when the division is exact and the call raises
`NonDivisibleCompositeSize` otherwise; with no unknown member the total must
equal the known product exactly, else `SizeMismatchComposite`. -/
theorem composite_resolution_cases (aL : PyDict) (st : ResolveState) (dim : Tok)
    (total : Nat) (comps : List Tok) (hc : pySplitWs (stripParens dim) = comps) :
    (2 ≤ unknownCount aL comps →
      resolveComposite aL st dim total = .error (.multipleUnknown dim)) ∧
    (∀ u, firstUnknown aL comps = some u → unknownCount aL comps ≤ 1 →
      0 < knownProd aL comps →
      (knownProd aL comps ∣ total →
        (resolveComposite aL st dim total).map (fun s => dictGet? s.dimSizes u) =
          .ok (some (total / knownProd aL comps))) ∧
      (¬ knownProd aL comps ∣ total →
        resolveComposite aL st dim total =
          .error (.nonDivisible total (knownProd aL comps)))) ∧
    (unknownCount aL comps = 0 →
      (total = knownProd aL comps →
        resolveComposite aL st dim total =
          .ok ⟨insertKnown aL comps st.dimSizes,
            comps.foldl (fun d c => dictInsert d c st.pos) st.dimToPos, st.pos + 1⟩) ∧
      (total ≠ knownProd aL comps →
        resolveComposite aL st dim total =
          .error (.sizeMismatchComposite dim (knownProd aL comps) total))) := by
  have hscan := scanComponents_none_spec aL dim comps 1 st.dimSizes
  rw [Nat.one_mul] at hscan
  refine ⟨?_, ?_, ?_⟩
  · intro h2
    rw [if_pos h2] at hscan
    exact resolveComposite_of_scan_error aL st dim total _ (by rw [hc]; exact hscan)
  · intro u hu hle hpos
    rw [if_neg (by omega), hu] at hscan
    have hbase := resolveComposite_one_unknown aL st dim total (knownProd aL comps) u
      (insertKnown aL comps st.dimSizes) (by omega) (by rw [hc]; exact hscan)
    constructor
    · intro hdvd
      have hmod : ¬ total % knownProd aL comps ≠ 0 := by
        have := Nat.dvd_iff_mod_eq_zero.mp hdvd
        omega
      rw [if_neg hmod] at hbase
      rw [hbase]
      show Except.ok (dictGet? (dictInsert _ u (total / knownProd aL comps)) u) = _
      rw [dictGet?_insert, if_pos rfl]
    · intro hndvd
      have hmod : total % knownProd aL comps ≠ 0 :=
        fun hh => hndvd (Nat.dvd_iff_mod_eq_zero.mpr hh)
      rw [if_pos hmod] at hbase
      exact hbase
  · intro h0
    rw [if_neg (by omega), firstUnknown_eq_none aL comps h0] at hscan
    have hbase := resolveComposite_no_unknown aL st dim total (knownProd aL comps)
      (insertKnown aL comps st.dimSizes) (by rw [hc]; exact hscan)
    constructor
    · intro heq
      rw [if_neg (by omega)] at hbase
      rw [hbase, hc]
    · intro hne
      rw [if_pos hne] at hbase
      exact hbase

theorem composite_resolution_cases_witness :
    (2 ≤ unknownCount [(['a'], 2)] [['a'], ['b'], ['c']] →
      resolveComposite [(['a'], 2)] ⟨[], [], 0⟩ ['(','a',' ','b',' ','c',')'] 12 =
        .error (.multipleUnknown ['(','a',' ','b',' ','c',')'])) ∧
    (resolveComposite [(['a'], 2)] ⟨[], [], 0⟩ ['(','a',' ','b',' ','c',')'] 12 =
      .error (.multipleUnknown ['(','a',' ','b',' ','c',')'])) := by
  have h := composite_resolution_cases [(['a'], 2)] ⟨[], [], 0⟩
    ['(','a',' ','b',' ','c',')'] 12 [['a'], ['b'], ['c']] (by rfl)
  exact ⟨h.1, h.1 (by decide)⟩

/-- C7: the split `(h w) c -> h w c` with `h=3` followed by the merge
`h w c -> (h w) c` is the identity on every array of shape `(12,10)`,
in shape and element values. -/
theorem split_merge_roundtrip {α : Type} [Inhabited α] (d : List α) :
    (rearrange ⟨[12,10], d⟩ "(h w) c -> h w c" [("h",3)]).bind
      (fun y => rearrange y "h w c -> (h w) c" []) = .ok ⟨[12,10], d⟩ := by
  have h1 : rearrange (⟨[12,10], d⟩ : NpArray α) "(h w) c -> h w c" [("h",3)] =
      .ok ⟨[3,4,10], d⟩ :=
    rearrange_stages _ _ _ [12,10]
      [['(','h',' ','w',')'], ['c']] [['h'],['w'],['c']]
      [['(','h',' ','w',')'], ['c']] [['h'],['w'],['c']] 0
      ⟨[(['c'],10),(['w'],4),(['h'],3)], [(['c'],1),(['w'],0),(['h'],0)], 2⟩
      ⟨[12,10], d⟩ ⟨[3,4,10], []⟩ ⟨[12,10], d⟩ _
      rfl rfl rfl rfl rfl rfl rfl rfl
  have h2 : rearrange (⟨[3,4,10], d⟩ : NpArray α) "h w c -> (h w) c" [] =
      .ok ⟨[12,10], d⟩ :=
    rearrange_stages _ _ _ [3,4,10]
      [['h'],['w'],['c']] [['(','h',' ','w',')'], ['c']]
      [['h'],['w'],['c']] [['(','h',' ','w',')'], ['c']] 0
      ⟨[(['c'],10),(['w'],4),(['h'],3)], [(['c'],2),(['w'],1),(['h'],0)], 3⟩
      ⟨[3,4,10], d⟩ ⟨[12,10], []⟩ ⟨[3,4,10], d⟩ _
      rfl rfl rfl rfl rfl rfl rfl rfl
  rw [h1]
  show rearrange (⟨[3,4,10], d⟩ : NpArray α) "h w c -> (h w) c" [] = _
  exact h2

/-- C10: an input token that begins with `_d` is resolved through the
synthetic-ellipsis branch even when written by the user: it is bound directly
to the input size at the cursor, ignoring both the caller-hint conflict check
and the rank-exhaustion guard, and an out-of-range `_d`-token indexes past the
shape (index error) instead of raising `NotEnoughDimensions`. -/
theorem underscore_d_token_bypasses_checks (shape : List Nat) (aL : PyDict)
    (st : ResolveState) (dim : Tok) (hd : strStarts dim ['_', 'd'] = true) :
    (st.pos < shape.length →
      resolveDim shape aL st dim =
        .ok ⟨dictInsert st.dimSizes dim (shape.getD st.pos 0),
          dictInsert st.dimToPos dim st.pos, st.pos + 1⟩) ∧
    (shape.length ≤ st.pos → resolveDim shape aL st dim = .error .indexError) := by
  constructor
  · intro h
    unfold resolveDim
    rw [if_pos hd, if_pos h]
  · intro h
    unfold resolveDim
    rw [if_pos hd, if_neg (by omega)]

theorem underscore_d_token_bypasses_checks_witness :
    (resolveDim [5] [(['_','d','0'], 7)] ⟨[], [], 0⟩ ['_','d','0'] =
        .ok ⟨[(['_','d','0'], 5)], [(['_','d','0'], 0)], 1⟩) ∧
      (resolveDim [5] [] ⟨[], [], 1⟩ ['_','d','0'] = .error .indexError) :=
  ⟨(underscore_d_token_bypasses_checks [5] [(['_','d','0'], 7)] ⟨[], [], 0⟩
      ['_','d','0'] (by decide)).1 (by decide),
    (underscore_d_token_bypasses_checks [5] [] ⟨[], [], 1⟩
      ['_','d','0'] (by decide)).2 (by decide)⟩

/-- C5: for every array of shape `(3,1,5)`, `rearrange(x, 'a 1 c -> a b c', b=4)`
returns shape `(3,4,5)` and every slice along the new axis equals the original
singleton slice: the element at `[a, j, c]` of the result equals the element at
`[a, 0, c]` of the input. -/
theorem singleton_repeat_copies_values {α : Type} [Inhabited α] (d : List α)
    (a j c : Nat) (hd : d.length = 15) (ha : a < 3) (hj : j < 4) (hc : c < 5) :
    (rearrange ⟨[3,1,5], d⟩ "a 1 c -> a b c" [("b",4)]).map
        (fun y => (y.shape, y.item [a, j, c])) =
      .ok ([3,4,5], NpArray.item ⟨[3,1,5], d⟩ [a, 0, c]) := by
  have hr : rearrange (⟨[3,1,5], d⟩ : NpArray α) "a 1 c -> a b c" [("b",4)] =
      .ok ⟨[3,4,5],
        (((listChunks 5 d).map (fun cc => (List.replicate 4 cc).flatten)).flatten)⟩ := by
    rfl
  have hitem : NpArray.item (⟨[3,4,5],
      (((listChunks 5 d).map (fun cc => (List.replicate 4 cc).flatten)).flatten)⟩ :
        NpArray α) [a, j, c] =
      NpArray.item (⟨[3,1,5], d⟩ : NpArray α) [a, 0, c] := by
    have h1 : flatIndex [3,4,5] [a,j,c] = (a * 4 + j) * 5 + c := by
      simp [flatIndex, List.prod_cons, List.prod_nil]
      ring
    have h2 : flatIndex [3,1,5] [a,0,c] = a * 5 + c := by
      simp [flatIndex, List.prod_cons, List.prod_nil]
    show (((listChunks 5 d).map (fun cc => (List.replicate 4 cc).flatten)).flatten).getD
        (flatIndex [3,4,5] [a,j,c]) default = d.getD (flatIndex [3,1,5] [a,0,c]) default
    rw [h1, h2]
    exact chunkRep_getD 5 4 (by omega) a d j c hc hj (by omega)
  rw [hr]
  show Except.ok (([3,4,5] : List Nat), NpArray.item (⟨[3,4,5],
      (((listChunks 5 d).map (fun cc => (List.replicate 4 cc).flatten)).flatten)⟩ :
        NpArray α) [a, j, c]) = _
  rw [hitem]

theorem singleton_repeat_copies_values_witness :
    (rearrange (⟨[3,1,5], List.range 15⟩ : NpArray Nat) "a 1 c -> a b c" [("b",4)]).map
        (fun y => (y.shape, y.item [2, 3, 4])) =
      .ok ([3,4,5], NpArray.item (⟨[3,1,5], List.range 15⟩ : NpArray Nat) [2, 0, 4]) :=
  singleton_repeat_copies_values (List.range 15) 2 3 4 (by decide) (by decide)
    (by decide) (by decide)

/-- C8 (counterexample to the claim as stated): with two repeat instructions
the executor's first loop pre-inserts extra length-one axes that change the
later block sizes, so the repeated data interleaves differently from the
reference executor's; at shape `(2,3)` with instructions `(0,5)` and `(1,7)`
the two pipelines produce different arrays after the same reshape. -/
theorem double_repeat_differs_from_reference :
    ((applyRepeats (⟨[2,3], [0,1,2,3,4,5]⟩ : NpArray Nat) [(0,5),(1,7)]) >>=
        (fun c2 => finalReshape c2 [5,7,2,3])) ≠
      ((referenceRepeats (⟨[2,3], [0,1,2,3,4,5]⟩ : NpArray Nat) [(0,5),(1,7)]) >>=
        (fun c2 => finalReshape c2 [5,7,2,3])) := by decide

/-- C8 (amended): for a single repeat instruction the executor's repeat stage
followed by the final reshape agrees exactly (shape and values) with the
reference executor that inserts one new length-one axis at the target index
and broadcast-expands it to the target size before the same reshape; with two
or more instructions at distinct indices the two can differ. -/
theorem single_repeat_matches_reference {α : Type} (a : NpArray α)
    (idx size : Nat) (fs : List Nat) (h : idx ≤ a.shape.length) :
    ((applyRepeats a [(idx, size)]) >>= (fun c2 => finalReshape c2 fs)) =
      ((referenceRepeats a [(idx, size)]) >>= (fun c2 => finalReshape c2 fs)) := by
  have hf1 : (a.shape.take idx).length = idx := by
    rw [List.length_take]
    exact Nat.min_eq_left h
  have hexp1 : expandDims a idx =
      .ok ⟨a.shape.take idx ++ 1 :: a.shape.drop idx, a.data⟩ := by
    unfold expandDims
    rw [if_pos h]
  have hA1take : (a.shape.take idx ++ 1 :: a.shape.drop idx).take idx = a.shape.take idx :=
    List.take_left' hf1
  have hA1drop : (a.shape.take idx ++ 1 :: a.shape.drop idx).drop idx =
      1 :: a.shape.drop idx :=
    List.drop_left' hf1
  have hA1len : (a.shape.take idx ++ 1 :: a.shape.drop idx).length = a.shape.length + 1 := by
    simp [hf1]
    omega
  have hA1getD : (a.shape.take idx ++ 1 :: a.shape.drop idx).getD idx 0 = 1 := by
    rw [List.getD_append_right _ _ _ _ (le_of_eq hf1), hf1, Nat.sub_self]
    rfl
  have hA1drop1 : (a.shape.take idx ++ 1 :: a.shape.drop idx).drop (idx + 1) =
      a.shape.drop idx := by
    rw [← List.drop_drop 1 idx, hA1drop]
    rfl
  have hexp2 : expandDims (⟨a.shape.take idx ++ 1 :: a.shape.drop idx, a.data⟩ : NpArray α)
      idx = .ok ⟨a.shape.take idx ++ 1 :: 1 :: a.shape.drop idx, a.data⟩ := by
    unfold expandDims
    rw [if_pos (by rw [hA1len]; omega), hA1take, hA1drop]
  have hf2 : (a.shape.take idx ++ 1 :: 1 :: a.shape.drop idx).take idx = a.shape.take idx :=
    List.take_left' hf1
  have hA2getD : (a.shape.take idx ++ 1 :: 1 :: a.shape.drop idx).getD idx 0 = 1 := by
    rw [List.getD_append_right _ _ _ _ (le_of_eq hf1), hf1, Nat.sub_self]
    rfl
  have hA2drop1 : (a.shape.take idx ++ 1 :: 1 :: a.shape.drop idx).drop (idx + 1) =
      1 :: a.shape.drop idx := by
    rw [← List.drop_drop 1 idx, List.drop_left' hf1]
    rfl
  have hA2len : idx < (a.shape.take idx ++ 1 :: 1 :: a.shape.drop idx).length := by
    simp only [List.length_append, List.length_cons, hf1]
    omega
  have hrep : npRepeat (⟨a.shape.take idx ++ 1 :: 1 :: a.shape.drop idx, a.data⟩ : NpArray α)
      size idx =
      .ok ⟨a.shape.take idx ++ size :: 1 :: a.shape.drop idx,
        (((listChunks ((a.shape.drop idx).prod) a.data).map
          (fun c => (List.replicate size c).flatten)).flatten)⟩ := by
    unfold npRepeat
    rw [if_pos hA2len, hf2, hA2getD, hA2drop1, Nat.one_mul, List.prod_cons, Nat.one_mul]
  have hbro : broadcastAxis (⟨a.shape.take idx ++ 1 :: a.shape.drop idx, a.data⟩ : NpArray α)
      idx size =
      .ok ⟨a.shape.take idx ++ size :: a.shape.drop idx,
        (((listChunks ((a.shape.drop idx).prod) a.data).map
          (fun c => (List.replicate size c).flatten)).flatten)⟩ := by
    unfold broadcastAxis
    rw [if_pos (by rw [hA1len]; omega), if_pos hA1getD, hA1take, hA1drop1]
  have hA : applyRepeats a [(idx, size)] =
      .ok ⟨a.shape.take idx ++ size :: 1 :: a.shape.drop idx,
        (((listChunks ((a.shape.drop idx).prod) a.data).map
          (fun c => (List.replicate size c).flatten)).flatten)⟩ := by
    unfold applyRepeats
    rw [if_neg (by simp), show sortRepeats [(idx, size)] = [(idx, size)] from rfl]
    simp only [List.foldlM_cons, List.foldlM_nil, hexp1, hexp2, hrep,
      exceptBind_ok, exceptBind_pure]
    rfl
  have hR : referenceRepeats a [(idx, size)] =
      .ok ⟨a.shape.take idx ++ size :: a.shape.drop idx,
        (((listChunks ((a.shape.drop idx).prod) a.data).map
          (fun c => (List.replicate size c).flatten)).flatten)⟩ := by
    unfold referenceRepeats
    rw [show sortRepeats [(idx, size)] = [(idx, size)] from rfl]
    simp only [List.foldlM_cons, List.foldlM_nil, hexp1, hbro,
      exceptBind_ok, exceptBind_pure]
    rfl
  rw [hA, hR, exceptBind_ok, exceptBind_ok]
  unfold finalReshape
  have hprod : (a.shape.take idx ++ size :: 1 :: a.shape.drop idx).prod =
      (a.shape.take idx ++ size :: a.shape.drop idx).prod := by
    simp [List.prod_append, List.prod_cons]
  rw [hprod]

theorem single_repeat_matches_reference_witness :
    ((applyRepeats (⟨[2,3], [0,1,2,3,4,5]⟩ : NpArray Nat) [(1, 7)]) >>=
        (fun c2 => finalReshape c2 [2,7,3])) =
      ((referenceRepeats (⟨[2,3], [0,1,2,3,4,5]⟩ : NpArray Nat) [(1, 7)]) >>=
        (fun c2 => finalReshape c2 [2,7,3])) :=
  single_repeat_matches_reference (⟨[2,3], [0,1,2,3,4,5]⟩ : NpArray Nat) 1 7 [2,7,3]
    (by decide)

/-- Supporting fact: a synthetic name is never a single-character token. -/
theorem synthName_ne_single (i : Nat) (c : Char) : synthName i ≠ [c] := by
  intro hh
  unfold synthName at hh
  injection hh with h1 h2
  exact List.noConfusion h2

/-- C6: for every array of rank at least 2, written as shape `ds ++ [h, w]`,
`rearrange(x, '... h w -> ... (h w)')` succeeds, keeps the data, and returns
the leading dimensions followed by the product of the last two, because both
sides expand the ellipsis to the same synthetic names at the same position. -/
theorem ellipsis_merge_shape {α : Type} [Inhabited α] (x : NpArray α) (ds : List Nat)
    (h w : Nat) (hs : x.shape = ds ++ [h, w]) :
    rearrange x "... h w -> ... (h w)" [] = .ok ⟨ds ++ [h * w], x.data⟩ := by
  have hLIs : ∀ i, lastIdxOf (synthName i) ([['h'], ['w']] : List Tok) = none := by
    intro i
    have hw' : ((['w'] : Tok) = synthName i) = False :=
      eq_false (fun hc => synthName_ne_single i 'w' hc.symm)
    have hh' : ((['h'] : Tok) = synthName i) = False :=
      eq_false (fun hc => synthName_ne_single i 'h' hc.symm)
    simp [lastIdxOf, hw', hh']
  have hfull : resolveInput (ds ++ [h, w]) []
      ((List.range ds.length).map synthName ++ [['h'], ['w']]) =
      .ok ⟨bindSizes (ds ++ [h, w]) 0 ((List.range ds.length).map synthName ++ [['h'], ['w']]) [],
        bindPos 0 ((List.range ds.length).map synthName ++ [['h'], ['w']]) [],
        ds.length + 2⟩ := by
    have hdir : ∀ d ∈ (List.range ds.length).map synthName ++ [['h'], ['w']],
        directTok [] d := by
      intro d hd
      rcases List.mem_append.mp hd with hd | hd
      · rcases List.mem_map.mp hd with ⟨i, _, rfl⟩
        exact Or.inl (synthName_starts i)
      · simp only [List.mem_cons, List.not_mem_nil, or_false] at hd
        rcases hd with rfl | rfl
        · exact Or.inr ⟨rfl, rfl⟩
        · exact Or.inr ⟨rfl, rfl⟩
    have hlen : (0 : Nat) + ((List.range ds.length).map synthName ++ [['h'], ['w']]).length ≤
        (ds ++ [h, w]).length := by
      simp
    have := resolveFold_direct (ds ++ [h, w]) [] 
      ((List.range ds.length).map synthName ++ [['h'], ['w']]) ⟨[], [], 0⟩ hdir hlen
    rw [resolveInput, this]
    have hl2 : (0 : Nat) + ((List.range ds.length).map synthName ++ [['h'], ['w']]).length =
        ds.length + 2 := by simp
    rw [hl2]
  have hlookS : ∀ i, i < ds.length →
      dictGet? (bindSizes (ds ++ [h, w]) 0
        ((List.range ds.length).map synthName ++ [['h'], ['w']]) []) (synthName i) =
      some ((ds ++ [h, w]).getD i 0) := by
    intro i hi
    rw [dictGet?_bindSizes, lastIdxOf_append, hLIs i]
    show (match lastIdxOf (synthName i) ((List.range ds.length).map synthName) with
      | some k => some ((ds ++ [h, w]).getD (0 + k) 0)
      | none => dictGet? [] (synthName i)) = _
    rw [List.range_eq_range', lastIdxOf_synth, if_pos (by omega)]
    show some ((ds ++ [h, w]).getD (0 + (i - 0)) 0) = _
    rw [show 0 + (i - 0) = i from by omega]
  have hlookH : dictGet? (bindSizes (ds ++ [h, w]) 0
      ((List.range ds.length).map synthName ++ [['h'], ['w']]) []) ['h'] = some h := by
    rw [dictGet?_bindSizes, lastIdxOf_append,
      show lastIdxOf (['h'] : Tok) [['h'], ['w']] = some 0 from rfl]
    show some ((ds ++ [h, w]).getD
      (0 + (((List.range ds.length).map synthName).length + 0)) 0) = _
    rw [show (0 + (((List.range ds.length).map synthName).length + 0)) = ds.length by simp]
    rw [List.getD_append_right _ _ _ _ (le_refl ds.length), Nat.sub_self]
    rfl
  have hlookW : dictGet? (bindSizes (ds ++ [h, w]) 0
      ((List.range ds.length).map synthName ++ [['h'], ['w']]) []) ['w'] = some w := by
    rw [dictGet?_bindSizes, lastIdxOf_append,
      show lastIdxOf (['w'] : Tok) [['h'], ['w']] = some 1 from rfl]
    show some ((ds ++ [h, w]).getD
      (0 + (((List.range ds.length).map synthName).length + 1)) 0) = _
    rw [show (0 + (((List.range ds.length).map synthName).length + 1)) = ds.length + 1 by simp]
    rw [List.getD_append_right _ _ _ _ (by omega), Nat.add_sub_cancel_left]
    rfl
  apply rearrange_stages x _ _ (ds ++ [h, w])
    [['.','.','.'], ['h'], ['w']] [['.','.','.'], ['(','h',' ','w',')']]
    ((List.range ds.length).map synthName ++ [['h'], ['w']])
    ((List.range ds.length).map synthName ++ [['(','h',' ','w',')']])
    ds.length
    ⟨bindSizes (ds ++ [h, w]) 0 ((List.range ds.length).map synthName ++ [['h'], ['w']]) [],
      bindPos 0 ((List.range ds.length).map synthName ++ [['h'], ['w']]) [],
      ds.length + 2⟩
    x ⟨ds ++ [h * w], []⟩ x _ hs
  · rfl
  · -- expandEllipsis
    unfold expandEllipsis
    rw [if_pos (by decide)]
    rw [show (([['.','.','.'], ['h'], ['w']] : List Tok).filter
        (fun d => d ≠ ['.','.','.'])).length = 2 from rfl]
    rw [show (ds ++ [h, w]).length = ds.length + 2 by simp]
    rw [if_neg (by omega)]
    rw [show ([['.','.','.'], ['h'], ['w']] : List Tok).indexOf ['.','.','.'] = 0 from rfl]
    rw [show ([['.','.','.'], ['(','h',' ','w',')']] : List Tok).indexOf
      ['.','.','.'] = 0 from rfl]
    rw [show ds.length + 2 - 2 = ds.length by omega]
    simp [expandDimsList]
  · exact hfull
  · -- fastTranspose: the output contains a composite token, no fast path
    have hany : ((((List.range ds.length).map synthName ++ [['h'], ['w']]) ++
        ((List.range ds.length).map synthName ++ [['(','h',' ','w',')']])).any
          (fun d => d.contains '(')) = true := by
      rw [List.any_eq_true]
      refine ⟨['(','h',' ','w',')'], ?_, by decide⟩
      exact List.mem_append_right _ (List.mem_append_right _ (by simp))
    unfold fastTranspose
    rw [if_neg (by simp [hany])]
  · -- planner
    rw [show (List.map (fun p : String × Nat => (p.1.toList, p.2)) []) = ([] : PyDict)
      from rfl]
    rw [List.foldlM_append]
    rw [planFold_synth_range [] _ ds.length (fun i => (ds ++ [h, w]).getD i 0) ds.length
      ⟨[], []⟩ (fun i _ => rfl) (fun i h2 => hlookS i h2)]
    rw [exceptBind_ok]
    have hds : (List.range ds.length).map (fun i => (ds ++ [h, w]).getD i 0) = ds := by
      rw [List.range_eq_range' ds.length]
      rw [getD_map_range' (ds ++ [h, w]) ds.length 0 (by simp)]
      rw [List.drop_zero, List.take_left' rfl]
    rw [hds]
    rw [List.foldlM_cons]
    have hplan : planDim [] (bindSizes (ds ++ [h, w]) 0
        ((List.range ds.length).map synthName ++ [['h'], ['w']]) []) ds.length
        ⟨[] ++ ds, []⟩ ['(','h',' ','w',')'] =
        .ok ⟨([] ++ ds) ++ [h * w], []⟩ := by
      unfold planDim
      rw [if_neg (by decide), if_pos (by decide)]
      rw [show pySplitWs (stripParens ['(','h',' ','w',')']) = [['h'], ['w']] from rfl]
      have hcs : compositeSize (bindSizes (ds ++ [h, w]) 0
          ((List.range ds.length).map synthName ++ [['h'], ['w']]) []) [['h'], ['w']] 1 =
          .ok (1 * h * w) := by
        simp only [compositeSize, hlookH, hlookW]
      rw [hcs, exceptBind_ok, Nat.one_mul]
    rw [hplan, exceptBind_ok, List.foldlM_nil]
    rfl
  · -- applyRepeats with no instructions
    unfold applyRepeats
    rw [if_pos rfl]
  · -- final reshape
    unfold finalReshape
    rw [hs, if_pos (by simp [List.prod_append, List.prod_cons])]

theorem ellipsis_merge_shape_witness :
    rearrange (⟨[2,3,4], List.range 24⟩ : NpArray Nat) "... h w -> ... (h w)" [] =
      .ok ⟨[2,12], List.range 24⟩ :=
  ellipsis_merge_shape (⟨[2,3,4], List.range 24⟩ : NpArray Nat) [2] 3 4 rfl

end Einops
